import Mathlib

/-
Shallow embedding of the conversation engine of the NEW-BACKEND repository:
  - backend/conversation.py  (ConversationManager: history trimming, system
    message handling, the streaming tool-call orchestration loop, tool-call
    delta reassembly, tool execution with error isolation, history clearing)
  - backend/utils/content_extraction.py  (extract_tool_content)

Modelling conventions, justified against the Python source:
  - Python dict messages become the Message structure below; keys that a given
    role never sets are modelled as none.
  - In the source, every guard on fragment fields uses Python truthiness, under
    which None and the empty string coincide; fragment fields are therefore
    modelled as plain String with the empty string standing for an absent
    value.  The one place the distinction matters, the default of the type
    field, is modelled explicitly.
  - The OpenAI streaming response is modelled as the list of chunks the async
    iteration consumes; a chunk whose choices list is empty is modelled as
    none and skipped, exactly as the source skips it.
  - An exception raised by the completion request or while iterating its
    chunks is modelled by the failure field of StreamResult: the chunks field
    holds the chunks consumed before the exception.  Exception propagation is
    modelled by the TurnResult.failed constructor, which carries the state of
    the manager observable after the exception escapes.
  - json.loads plus session.call_tool plus content extraction inside the try
    block of _execute_tool_calls is modelled by an oracle of type
    ToolCall -> Except String String: an error value carries str(e) for
    whichever exception the block raised (JSON parse failure included).
-/

/-- Roles a transcript message can carry in the source. -/
inductive Role where
  | system
  | user
  | assistant
  | tool
deriving DecidableEq

/-- Mirrors the ToolCallFunction TypedDict of conversation.py. -/
structure ToolCallFunction where
  name : String
  arguments : String
deriving DecidableEq

/-- Mirrors the ToolCall TypedDict of conversation.py. -/
structure ToolCall where
  id : String
  type : String
  function : ToolCallFunction
deriving DecidableEq

/-- A transcript entry: role plus content, with the optional keys that tool
and assistant messages add in the source. -/
structure Message where
  role : Role
  content : String
  toolCallId : Option String := none
  toolCalls : Option (List ToolCall) := none
deriving DecidableEq

/-- The two mutable fields of ConversationManager that the claims concern:
self.conversation_history and self.system_message. -/
structure ConversationManager where
  conversation_history : List Message
  system_message : Message
deriving DecidableEq

/-- The state of a fresh ConversationManager after __init__: empty history and
a default system message with empty content. -/
def initManager : ConversationManager :=
  { conversation_history := [],
    system_message := { role := Role.system, content := "" } }

/-- Python slice lst[i:] for an arbitrary integer start index: a nonnegative
index drops that many elements from the front, a negative index keeps the last
(-i) elements. -/
def pyDropSlice (i : Int) (l : List Message) : List Message :=
  if 0 ≤ i then l.drop i.toNat else l.drop (l.length - (-i).toNat)

/-- ConversationManager.trim_history: when the history exceeds max_length,
rebuild it as the stored system message followed by the Python slice
history[-(max_length - 1):].  The slice index is computed in Int exactly as
Python does, so that max_length = 1 yields the slice [-0:] = [0:], the whole
list. -/
def trim_history (sys : Message) (max_length : Nat) (hist : List Message) :
    List Message :=
  if max_length < hist.length then
    sys :: pyDropSlice (-((max_length : Int) - 1)) hist
  else hist

/-- ConversationManager.set_system_message: store the new system message; if
the first history entry has the system role, overwrite its content field in
place, otherwise insert the new system message at position 0. -/
def set_system_message (content : String) (st : ConversationManager) :
    ConversationManager :=
  let sysMsg : Message := { role := Role.system, content := content }
  match st.conversation_history with
  | m :: rest =>
    if m.role = Role.system then
      { conversation_history := { m with content := content } :: rest,
        system_message := sysMsg }
    else
      { conversation_history := sysMsg :: m :: rest, system_message := sysMsg }
  | [] => { conversation_history := [sysMsg], system_message := sysMsg }

/-- ConversationManager.clear_history: empty the history, then re-append the
stored system message.  The source guards the append with the truthiness of
self.system_message, a dict that always holds the role and content keys and is
therefore always truthy, so the append is unconditional in the model. -/
def clear_history (st : ConversationManager) : ConversationManager :=
  { st with conversation_history := [st.system_message] }

/-- Number of system-role entries in a transcript. -/
def systemCount (l : List Message) : Nat :=
  (l.filter fun m => m.role == Role.system).length

/-- A content part of an MCP tool result, as extract_tool_content inspects it:
either the item has a type attribute (and possibly a text attribute), or it
has no type attribute and only its string form is used. -/
inductive ContentItem where
  | typed (ty : String) (text : Option String)
  | untyped (s : String)
deriving DecidableEq

/-- The text one content part adds to content_text in extract_tool_content:
the text attribute of a text-typed part that has one, the bracketed
placeholder for every other typed part, the string form of an untyped part. -/
def contentItemText : ContentItem → String
  | ContentItem.typed ty text? =>
    if ty = "text" then
      match text? with
      | some t => t
      | none => "[" ++ ty ++ " content]"
    else "[" ++ ty ++ " content]"
  | ContentItem.untyped s => s

/-- backend/utils/content_extraction.py extract_tool_content: fold over the
content list, accumulating the contribution of each part into content_text.
An absent or empty content list contributes nothing. -/
def extract_tool_content (content : List ContentItem) : String :=
  content.foldl (fun acc item => acc ++ contentItemText item) ""

/-- Concatenation of a list of strings, used to state the claims about
concatenated fragments and parts. -/
def strConcat : List String → String
  | [] => ""
  | s :: l => s ++ strConcat l

/-- Contribution of one content part as the specification describes it: a
text part contributes its text, any other typed part contributes the bracketed
placeholder naming its type, an untyped part contributes its string form. -/
def specPartContribution : ContentItem → String
  | ContentItem.typed ty text? =>
    if ty = "text" then text?.getD "" else "[" ++ ty ++ " content]"
  | ContentItem.untyped s => s

/-- True unless the part is text-typed without a text attribute, the only
shape of part the specification sentence does not cover. -/
def textPartHasText : ContentItem → Bool
  | ContentItem.typed ty text? => if ty = "text" then text?.isSome else true
  | ContentItem.untyped _ => true

/-- System message used in concrete evaluations. -/
def sysS : Message := { role := Role.system, content := "You are helpful." }

/-- A user message with the given text, as appended by
process_message_streaming. -/
def userMsg (s : String) : Message := { role := Role.user, content := s }

/-- Claim C8 counterexample: on a transcript that already holds a stray system
entry after position 0, calling set_system_message twice leaves two
system-role messages, not exactly one as the claim states for every
transcript. -/
def c8Manager : ConversationManager :=
  { conversation_history :=
      [{ role := Role.assistant, content := "hi" },
       { role := Role.system, content := "stray" }],
    system_message := { role := Role.system, content := "" } }

/-- Manager with a well-formed transcript used to witness the amended C8. -/
def c8Good : ConversationManager :=
  { conversation_history := [{ role := Role.user, content := "hello" }],
    system_message := { role := Role.system, content := "" } }

/-- Content list exercising all three part shapes of C9. -/
def c9Parts : List ContentItem :=
  [ContentItem.typed "text" (some "The answer is 4"),
   ContentItem.typed "image" none,
   ContentItem.untyped "raw item"]

/-- One tool-call fragment of a streamed delta, carrying the zero-based index
the completion API assigns plus optional fields.  Every guard the source
applies to id, name and arguments is a truthiness test, under which None and
the empty string agree, so absent fields are modelled as the empty string. -/
structure ToolCallDelta where
  index : Nat
  id : String
  type : String
  name : String
  arguments : String
deriving DecidableEq

/-- The delta of one streamed chunk: an optional content fragment and the
list of tool-call fragments (an absent tool_calls list behaves exactly like
an empty one, since the source only iterates it). -/
structure Delta where
  content : Option String
  toolCalls : List ToolCallDelta
deriving DecidableEq

/-- A streamed chunk; none models a chunk whose choices list is empty, which
the source skips. -/
abbrev Chunk := Option Delta

/-- Lookup of an index in the tool_calls_dict, modelled as an association
list in insertion order. -/
def lookupIdx (i : Nat) : List (Nat × ToolCall) → Option ToolCall
  | [] => none
  | p :: rest => if p.1 = i then some p.2 else lookupIdx i rest

/-- The ToolCall record created on first sight of an index: id and name from
the fragment with empty-string defaults, type from the fragment with default
"function". -/
def initialToolCall (d : ToolCallDelta) : ToolCall :=
  { id := d.id,
    type := if d.type = "" then "function" else d.type,
    function := { name := d.name, arguments := d.arguments } }

/-- Appending an argument fragment to the entry of the given index. -/
def appendArguments (acc : List (Nat × ToolCall)) (i : Nat) (args : String) :
    List (Nat × ToolCall) :=
  acc.map fun p =>
    if p.1 = i then
      (p.1, { p.2 with function :=
        { p.2.function with
            arguments := p.2.function.arguments ++ args } })
    else p

/-- Processing of one tool-call fragment, as in the streaming loop of
process_message_streaming: initialize the entry on first sight of the index,
otherwise append the argument fragment when it is nonempty. -/
def mergeToolCallDelta (acc : List (Nat × ToolCall)) (d : ToolCallDelta) :
    List (Nat × ToolCall) :=
  match lookupIdx d.index acc with
  | none => acc ++ [(d.index, initialToolCall d)]
  | some _ =>
    if d.arguments ≠ "" then appendArguments acc d.index d.arguments else acc

/-- Processing of one delta: extend full_content when a content fragment is
present, then fold the tool-call fragments into the dictionary. -/
def mergeDelta (st : String × List (Nat × ToolCall)) (delta : Delta) :
    String × List (Nat × ToolCall) :=
  let st1 := match delta.content with
    | some s => (st.1 ++ s, st.2)
    | none => st
  (st1.1, delta.toolCalls.foldl mergeToolCallDelta st1.2)

/-- Processing of one chunk: skip it when it has no choices. -/
def processChunk (st : String × List (Nat × ToolCall)) (c : Chunk) :
    String × List (Nat × ToolCall) :=
  match c with
  | none => st
  | some d => mergeDelta st d

/-- The pass of process_message_streaming over a completed stream: the
accumulated full_content and the tool_calls_dict. -/
def processChunks (chunks : List Chunk) : String × List (Nat × ToolCall) :=
  chunks.foldl processChunk ("", [])

/-- The tool_calls_dict assembled from a stream. -/
def streamDict (chunks : List Chunk) : List (Nat × ToolCall) :=
  (processChunks chunks).2

/-- The accumulated full_content of a stream. -/
def fullContent (chunks : List Chunk) : String :=
  (processChunks chunks).1

/-- The content fragments a stream yields to the caller, in arrival order. -/
def streamYields (chunks : List Chunk) : List String :=
  chunks.filterMap fun c => c.bind fun d => d.content

/-- Keys of the dictionary in insertion order. -/
def dictKeys (d : List (Nat × ToolCall)) : List Nat := d.map Prod.fst

/-- The sorted index list used to build the final tool-call list. -/
def sortedIndices (chunks : List Chunk) : List Nat :=
  List.insertionSort (· ≤ ·) (dictKeys (streamDict chunks))

/-- The final tool-call list of a round: dictionary entries ordered by
ascending index. -/
def finalToolCalls (chunks : List Chunk) : List ToolCall :=
  (sortedIndices chunks).filterMap fun i => lookupIdx i (streamDict chunks)

/-- All tool-call fragments of a stream in arrival order. -/
def streamFragments (chunks : List Chunk) : List ToolCallDelta :=
  (chunks.filterMap id).flatMap fun d => d.toolCalls

/-- The indices carried by the fragments of a stream, in arrival order. -/
def streamIndices (chunks : List Chunk) : List Nat :=
  (streamFragments chunks).map ToolCallDelta.index

/-- First fragment carrying the given index, if any. -/
def firstFragFor (i : Nat) : List ToolCallDelta → Option ToolCallDelta
  | [] => none
  | f :: fs => if f.index = i then some f else firstFragFor i fs

/-- Argument strings of the fragments carrying the given index, in arrival
order. -/
def fragArgsFor (i : Nat) (fs : List ToolCallDelta) : List String :=
  (fs.filter fun f => f.index == i).map ToolCallDelta.arguments

/-- Concatenation of all argument fragments for an index, in arrival order. -/
def argsConcatFor (i : Nat) (fs : List ToolCallDelta) : String :=
  strConcat (fragArgsFor i fs)

/-- The chunk stream of the specification example for C4: the name of index
0 arrives in fragment 1, its arguments arrive split across fragments 2, 3
and 5, an unrelated index-1 fragment sits at position 4, and one chunk with
no choices is interleaved. -/
def c4Chunks : List Chunk :=
  [some { content := none, toolCalls :=
      [{ index := 0, id := "call_0", type := "function",
         name := "get_weather", arguments := "" }] },
   some { content := some "checking", toolCalls :=
      [{ index := 0, id := "", type := "", name := "", arguments := "\x7b\x22ci" }] },
   some { content := none, toolCalls :=
      [{ index := 0, id := "", type := "", name := "", arguments := "ty\x22: " }] },
   none,
   some { content := none, toolCalls :=
      [{ index := 1, id := "call_1", type := "function",
         name := "other_tool", arguments := "\x7b\x7d" }] },
   some { content := none, toolCalls :=
      [{ index := 0, id := "", type := "", name := "", arguments := "\x22NY\x22\x7d" }] }]

/-- Stream in which the first fragment of index 0 carries no name and a
later fragment of index 0 carries one. -/
def c5Chunks : List Chunk :=
  [some { content := none, toolCalls :=
      [{ index := 0, id := "call_1", type := "function",
         name := "", arguments := "\x7b" }] },
   some { content := none, toolCalls :=
      [{ index := 0, id := "", type := "",
         name := "get_weather", arguments := "\x7d" }] }]

/-- The first fragment of index 0 in the C5 stream. -/
def c5FirstFrag : ToolCallDelta :=
  { index := 0, id := "call_1", type := "function",
    name := "", arguments := "\x7b" }

/-- The assistant message _create_assistant_message builds: the tool_calls
key is only added when the list is nonempty. -/
def assistantMessage (content : String) (toolCalls : List ToolCall) :
    Message :=
  { role := Role.assistant, content := content,
    toolCalls := if toolCalls.isEmpty then none else some toolCalls }

/-- The tool-role message _execute_tool_calls appends for one tool call.
The oracle stands for json.loads of the argument string followed by
session.call_tool and content extraction: ok carries the extracted content
text, error carries str(e) of whichever exception the try block raised,
a JSON parse failure included.  On error the appended content is the
formatted string of the source, and in both cases tool_call_id is the id of
the call. -/
def toolResultMessage (exec : ToolCall → Except String String)
    (tc : ToolCall) : Message :=
  match exec tc with
  | Except.ok content =>
    { role := Role.tool, content := content, toolCallId := some tc.id }
  | Except.error e =>
    { role := Role.tool,
      content := "Error executing tool " ++ tc.function.name ++ ": " ++ e,
      toolCallId := some tc.id }

/-- ConversationManager._execute_tool_calls: iterate the tool calls in
order, appending one tool-role response per call to the history; a failing
call never raises, it contributes its synthesized error message instead and
the remaining calls are still executed. -/
def execute_tool_calls (exec : ToolCall → Except String String)
    (hist : List Message) : List ToolCall → List Message
  | [] => hist
  | tc :: rest =>
    execute_tool_calls exec (hist ++ [toolResultMessage exec tc]) rest

/-- The result of one streaming completion request: the chunks the async
iteration consumed, and some error when the request or the iteration raised
after those chunks. -/
structure StreamResult where
  chunks : List Chunk
  failure : Option String
deriving DecidableEq

/-- The observable state of a turn: the conversation history and the list
of text fragments yielded to the caller so far. -/
structure ChatState where
  history : List Message
  output : List String
deriving DecidableEq

/-- Outcome of a turn: normal completion, or an exception that propagated
to the caller, each carrying the state observable at that point and the
value of current_iteration. -/
inductive TurnResult where
  | ok (st : ChatState) (iter : Nat)
  | failed (st : ChatState) (iter : Nat)
deriving DecidableEq

/-- The hardcoded iteration bound of process_message_streaming. -/
def maxToolIterations : Nat := 5

/-- The synthetic user-authored summary request _handle_max_iterations
appends before the tool-disabled summary round. -/
def summaryPromptMessage : Message :=
  { role := Role.user,
    content := "I\x27ve reached my tool call limit (5 iterations per message). Please summarize what you\x27ve accomplished so far, what still needs to be done, and ask if I\x27d like you to continue by sending another message." }

/-- The while loop of process_message_streaming, with fuel equal to
max_tool_iterations minus current_iteration so that the guard
current_iteration less than max_tool_iterations is fuel positive.  Each
round streams a completion (model applied to the new current_iteration
value), yields its content fragments, and either propagates a stream
failure, stops after appending the assistant message when the round
produced no tool calls, or executes the tool calls and loops. -/
def loopAux (model : Nat → StreamResult)
    (exec : ToolCall → Except String String) :
    Nat → Nat → ChatState → TurnResult
  | 0, iter, st => TurnResult.ok st iter
  | fuel + 1, iter, st =>
    let s := model (iter + 1)
    let st1 : ChatState :=
      { st with output := st.output ++ streamYields s.chunks }
    match s.failure with
    | some _ => TurnResult.failed st1 (iter + 1)
    | none =>
      let content := fullContent s.chunks
      let toolCalls := finalToolCalls s.chunks
      let st2 : ChatState :=
        { st1 with
            history := st1.history ++ [assistantMessage content toolCalls] }
      if toolCalls.isEmpty then TurnResult.ok st2 (iter + 1)
      else
        loopAux model exec fuel (iter + 1)
          { st2 with
              history := execute_tool_calls exec st2.history toolCalls }

/-- ConversationManager._handle_max_iterations: append the summary request,
stream the tool-disabled summary completion, yield its content fragments
and append the resulting assistant message; a failure of the summary
request propagates after the prompt was already appended. -/
def runSummary (summary : StreamResult) (iter : Nat) (st : ChatState) :
    TurnResult :=
  let st1 : ChatState :=
    { st with history := st.history ++ [summaryPromptMessage] }
  let st2 : ChatState :=
    { st1 with output := st1.output ++ streamYields summary.chunks }
  match summary.failure with
  | some _ => TurnResult.failed st2 iter
  | none =>
    TurnResult.ok
      { st2 with history := st2.history
          ++ [{ role := Role.assistant,
                content := fullContent summary.chunks }] }
      iter

/-- ConversationManager.process_message_streaming: trim the history, append
the user message, run the bounded tool loop, and when the loop left
current_iteration at the bound run the summary round.  The model argument
gives the stream returned by the completion request of each round and
summary gives the stream of the tool-disabled summary round. -/
def process_message_streaming (model : Nat → StreamResult)
    (summary : StreamResult) (exec : ToolCall → Except String String)
    (sys : Message) (maxHistory : Nat) (hist : List Message)
    (userText : String) : TurnResult :=
  let hist2 := trim_history sys maxHistory hist ++ [userMsg userText]
  match loopAux model exec maxToolIterations 0
      { history := hist2, output := [] } with
  | TurnResult.failed st i => TurnResult.failed st i
  | TurnResult.ok st i =>
    if maxToolIterations ≤ i then runSummary summary i st
    else TurnResult.ok st i

/-- The effect on the state of one completed round numbered n that produced
tool calls: append the assistant message, execute the calls, and record the
yielded fragments. -/
def completeRound (model : Nat → StreamResult)
    (exec : ToolCall → Except String String) (n : Nat) (st : ChatState) :
    ChatState :=
  { history := execute_tool_calls exec
      (st.history
        ++ [assistantMessage (fullContent (model n).chunks)
              (finalToolCalls (model n).chunks)])
      (finalToolCalls (model n).chunks),
    output := st.output ++ streamYields (model n).chunks }

/-- State after the rounds iter + 1 through iter + n have completed with
tool calls. -/
def roundsFrom (model : Nat → StreamResult)
    (exec : ToolCall → Except String String) (iter : Nat) (st : ChatState) :
    Nat → ChatState
  | 0 => st
  | n + 1 => completeRound model exec (iter + n + 1) (roundsFrom model exec iter st n)

/-- Round n streams without failure and requests at least one tool call. -/
def goodRound (model : Nat → StreamResult) (n : Nat) : Prop :=
  (model n).failure = none ∧ finalToolCalls (model n).chunks ≠ []

/-- The state process_message_streaming starts the loop from: trimmed
history plus the new user message, nothing yielded yet. -/
def initialTurnState (sys : Message) (maxHistory : Nat)
    (hist : List Message) (userText : String) : ChatState :=
  { history := trim_history sys maxHistory hist ++ [userMsg userText],
    output := [] }

/-- History component of a turn result. -/
def turnHistory : TurnResult → List Message
  | TurnResult.ok st _ => st.history
  | TurnResult.failed st _ => st.history

/-- Output component of a turn result. -/
def turnOutput : TurnResult → List String
  | TurnResult.ok st _ => st.output
  | TurnResult.failed st _ => st.output

/-- Delta used by the stub models: no text, one tool-call fragment. -/
def stubToolDelta : Delta :=
  { content := none,
    toolCalls := [{ index := 0, id := "call_a", type := "",
                    name := "do_step", arguments := "\x7b\x7d" }] }

/-- Model stub that requests a tool call on every round. -/
def c3Model : Nat → StreamResult :=
  fun _ => { chunks := [some stubToolDelta], failure := none }

/-- Summary stream of the stub runs. -/
def c3Summary : StreamResult :=
  { chunks := [some { content := some "progress summary", toolCalls := [] }],
    failure := none }

/-- Tool oracle that always succeeds. -/
def okExec : ToolCall → Except String String :=
  fun _ => Except.ok "step done"

/-- Model stub for C2: rounds 1 through 4 request a tool call, round 5
returns only text. -/
def c2Model : Nat → StreamResult := fun n =>
  if n ≤ 4 then { chunks := [some stubToolDelta], failure := none }
  else
    { chunks := [some { content := some "final answer", toolCalls := [] }],
      failure := none }

/-- Summary stream of the C2 run. -/
def c2Summary : StreamResult :=
  { chunks := [some { content := some "summary text", toolCalls := [] }],
    failure := none }

/-- Oracle failing exactly on the call with id bad, as json.loads does on
an argument string that is not valid JSON. -/
def c6Exec : ToolCall → Except String String := fun tc =>
  if tc.id = "bad" then
    Except.error "Expecting value: line 1 column 1 (char 0)"
  else Except.ok "ok"

/-- A tool call whose argument string is not valid JSON. -/
def c6Bad : ToolCall :=
  { id := "bad", type := "function",
    function := { name := "get_weather", arguments := "not json" } }

/-- Calls before the failing one. -/
def c6Pre : List ToolCall :=
  [{ id := "a", type := "function",
     function := { name := "first_tool", arguments := "\x7b\x7d" } }]

/-- Calls after the failing one. -/
def c6Post : List ToolCall :=
  [{ id := "b", type := "function",
     function := { name := "next_tool", arguments := "\x7b\x7d" } }]

/-- Model stub whose first round requests a tool call and whose second
round fails mid-stream after yielding a text fragment. -/
def c7Model : Nat → StreamResult := fun n =>
  if n = 1 then { chunks := [some stubToolDelta], failure := none }
  else
    { chunks := [some { content := some "partial text", toolCalls := [] }],
      failure := some "connection reset by peer" }

set_option maxRecDepth 8000

@[simp] lemma strConcat_cons (s : String) (l : List String) :
    strConcat (s :: l) = s ++ strConcat l := rfl

lemma extract_tool_content_foldl (parts : List ContentItem) :
    ∀ acc : String,
      parts.foldl (fun acc item => acc ++ contentItemText item) acc
        = acc ++ extract_tool_content parts := by
  induction parts with
  | nil => intro acc; simp [extract_tool_content]
  | cons p rest ih =>
    intro acc
    have h1 : extract_tool_content (p :: rest)
        = List.foldl (fun acc item => acc ++ contentItemText item)
            ("" ++ contentItemText p) rest := rfl
    rw [List.foldl_cons, ih, h1, ih, String.empty_append,
      ← String.append_assoc]

lemma extract_tool_content_cons (p : ContentItem) (rest : List ContentItem) :
    extract_tool_content (p :: rest)
      = contentItemText p ++ extract_tool_content rest := by
  have h1 : extract_tool_content (p :: rest)
      = List.foldl (fun acc item => acc ++ contentItemText item)
          ("" ++ contentItemText p) rest := rfl
  rw [h1, extract_tool_content_foldl, String.empty_append]

/-- Claim C1: trim_history called with max_length = 1 on a two-entry transcript.
The claim says the result has length at most 1 with only the system message
surviving; the code computes the Python slice [-(1 - 1):] = [-0:] = [0:],
which is the whole history, and prepends the system message to it, so the
transcript grows to three entries instead. -/
theorem trim_history_max_length_one_grows :
    trim_history sysS 1 [sysS, userMsg "hi"] = [sysS, sysS, userMsg "hi"]
      ∧ (trim_history sysS 1 [sysS, userMsg "hi"]).length = 3
      ∧ ¬ (trim_history sysS 1 [sysS, userMsg "hi"]).length ≤ 1 := by
  refine ⟨?_, ?_, ?_⟩ <;> decide

/-- Claim C8: the claim as stated fails on a transcript with a system entry after
position 0: after set_system_message A then B the transcript holds two
system-role messages. -/
theorem set_system_message_stray_duplicate :
    systemCount ((set_system_message "B"
        (set_system_message "A" c8Manager)).conversation_history) = 2
      ∧ systemCount ((set_system_message "B"
          (set_system_message "A" c8Manager)).conversation_history) ≠ 1 := by
  exact ⟨by decide, by decide⟩

/-- Claim C8 amended: for every manager whose transcript has no system-role entry
after position 0, set_system_message a then set_system_message b leaves
exactly one system-role message, at position 0, with content b; the second
call replaces the content of the first system entry in place, and the
non-system entries of the transcript are untouched. -/
theorem set_system_message_replaces (st : ConversationManager) (a b : String)
    (h : ∀ m ∈ st.conversation_history.drop 1, m.role ≠ Role.system) :
    systemCount ((set_system_message b
        (set_system_message a st)).conversation_history) = 1
      ∧ (((set_system_message b
            (set_system_message a st)).conversation_history.map
              fun m => (m.role, m.content)).head? = some (Role.system, b))
      ∧ ((set_system_message b
            (set_system_message a st)).conversation_history.drop 1
          = match st.conversation_history with
            | [] => ([] : List Message)
            | m :: rest => if m.role = Role.system then rest else m :: rest) := by
  obtain ⟨hist, sys⟩ := st
  match hist with
  | [] =>
    refine ⟨?_, ?_, ?_⟩ <;> simp [set_system_message, systemCount]
  | m :: rest =>
    simp only [List.drop_one, List.tail_cons] at h
    by_cases hm : m.role = Role.system
    · have hfilter : rest.filter (fun x => x.role == Role.system) = [] := by
        refine List.filter_eq_nil_iff.mpr ?_
        intro x hx
        simp [h x hx]
      refine ⟨?_, ?_, ?_⟩ <;>
        simp [set_system_message, systemCount, hm, hfilter]
    · have hfilter : rest.filter (fun x => x.role == Role.system) = [] := by
        refine List.filter_eq_nil_iff.mpr ?_
        intro x hx
        simp [h x hx]
      refine ⟨?_, ?_, ?_⟩ <;>
        simp [set_system_message, systemCount, hm, hfilter]

/-- Claim C8 amended, witnessed at a concrete manager and the contents A and B. -/
theorem set_system_message_replaces_witness :
    (∀ m ∈ c8Good.conversation_history.drop 1, m.role ≠ Role.system)
      ∧ (systemCount ((set_system_message "B"
            (set_system_message "A" c8Good)).conversation_history) = 1
          ∧ (((set_system_message "B"
                (set_system_message "A" c8Good)).conversation_history.map
                  fun m => (m.role, m.content)).head?
              = some (Role.system, "B"))
          ∧ ((set_system_message "B"
                (set_system_message "A" c8Good)).conversation_history.drop 1
              = match c8Good.conversation_history with
                | [] => ([] : List Message)
                | m :: rest =>
                  if m.role = Role.system then rest else m :: rest)) :=
  ⟨by decide, set_system_message_replaces c8Good "A" "B" (by decide)⟩

/-- Claim C9: on every content list in which every text-typed part carries a text
attribute, extract_tool_content returns the in-order concatenation of the
per-part contributions the specification describes, and an empty content list
yields the empty string. -/
theorem extract_tool_content_matches_spec (parts : List ContentItem)
    (h : ∀ p ∈ parts, textPartHasText p = true) :
    extract_tool_content parts = strConcat (parts.map specPartContribution)
      ∧ extract_tool_content ([] : List ContentItem) = "" := by
  refine ⟨?_, rfl⟩
  induction parts with
  | nil => rfl
  | cons p rest ih =>
    have hp : textPartHasText p = true := h p (by simp)
    have hrest : ∀ q ∈ rest, textPartHasText q = true := by
      intro q hq
      exact h q (by simp [hq])
    rw [extract_tool_content_cons, List.map_cons, strConcat_cons, ih hrest]
    congr 1
    match p with
    | ContentItem.typed ty text? =>
      simp only [textPartHasText] at hp
      by_cases hty : ty = "text"
      · rw [if_pos hty] at hp
        match text?, hp with
        | some t, _ => simp [contentItemText, specPartContribution, hty]
      · simp [contentItemText, specPartContribution, hty]
    | ContentItem.untyped s => rfl

/-- Claim C9 witnessed on a list with a text part, an image part and an untyped
part. -/
theorem extract_tool_content_matches_spec_witness :
    (∀ p ∈ c9Parts, textPartHasText p = true)
      ∧ (extract_tool_content c9Parts
            = strConcat (c9Parts.map specPartContribution)
          ∧ extract_tool_content ([] : List ContentItem) = "") :=
  ⟨by decide, extract_tool_content_matches_spec c9Parts (by decide)⟩

/-- Claim C10: clear_history leaves the transcript holding exactly the stored
system message, and on a freshly initialized manager, where
set_system_message was never called, that entry is the default system
message with empty content; the transcript is never left empty. -/
theorem clear_history_restores_system (st : ConversationManager) :
    (clear_history st).conversation_history = [st.system_message]
      ∧ (clear_history st).conversation_history.length = 1
      ∧ (clear_history initManager).conversation_history
          = [{ role := Role.system, content := "" }] :=
  ⟨rfl, rfl, rfl⟩

lemma strConcat_filter_ne (l : List String) :
    strConcat (l.filter fun s => s != "") = strConcat l := by
  induction l with
  | nil => rfl
  | cons s rest ih =>
    by_cases hs : s = ""
    · subst hs
      simpa [List.filter_cons, String.empty_append] using ih
    · simp [List.filter_cons, hs, ih]

lemma lookupIdx_append (i : Nat) (l₁ l₂ : List (Nat × ToolCall)) :
    lookupIdx i (l₁ ++ l₂)
      = match lookupIdx i l₁ with
        | some tc => some tc
        | none => lookupIdx i l₂ := by
  induction l₁ with
  | nil => simp [lookupIdx]
  | cons p rest ih =>
    by_cases hp : p.1 = i
    · simp [lookupIdx, hp]
    · simp [lookupIdx, hp, ih]

lemma lookupIdx_appendArguments_self (acc : List (Nat × ToolCall)) (i : Nat)
    (args : String) :
    lookupIdx i (appendArguments acc i args)
      = (lookupIdx i acc).map fun tc =>
          { tc with function :=
            { tc.function with
                arguments := tc.function.arguments ++ args } } := by
  induction acc with
  | nil => rfl
  | cons p rest ih =>
    by_cases hp : p.1 = i
    · simp [appendArguments, lookupIdx, hp]
    · simp [appendArguments, lookupIdx, hp] at ih ⊢
      exact ih

lemma lookupIdx_appendArguments_ne (acc : List (Nat × ToolCall)) (i j : Nat)
    (args : String) (h : j ≠ i) :
    lookupIdx j (appendArguments acc i args) = lookupIdx j acc := by
  have hij : ¬ i = j := fun hij => h hij.symm
  induction acc with
  | nil => rfl
  | cons p rest ih =>
    by_cases hpj : p.1 = j
    · have hpi : ¬ p.1 = i := by
        rw [hpj]
        exact h
      simp [appendArguments, lookupIdx, hpj, hpi, h]
    · by_cases hpi : p.1 = i
      · simpa [appendArguments, lookupIdx, hpj, hpi, hij] using ih
      · simpa [appendArguments, lookupIdx, hpj, hpi] using ih

lemma lookupIdx_merge_ne (acc : List (Nat × ToolCall)) (d : ToolCallDelta)
    (j : Nat) (h : j ≠ d.index) :
    lookupIdx j (mergeToolCallDelta acc d) = lookupIdx j acc := by
  have hne : ¬ d.index = j := fun hij => h hij.symm
  unfold mergeToolCallDelta
  match hl : lookupIdx d.index acc with
  | none =>
    rw [lookupIdx_append]
    have hsingle : lookupIdx j [(d.index, initialToolCall d)] = none := by
      simp [lookupIdx, hne]
    rw [hsingle]
    match lookupIdx j acc with
    | some tc => rfl
    | none => rfl
  | some tc =>
    by_cases hargs : d.arguments ≠ ""
    · simp only [if_pos hargs]
      exact lookupIdx_appendArguments_ne acc d.index j d.arguments h
    · simp only [if_neg hargs]

lemma lookupIdx_foldl_merge (fs : List ToolCallDelta) :
    ∀ (acc : List (Nat × ToolCall)) (i : Nat),
      lookupIdx i (fs.foldl mergeToolCallDelta acc)
        = match lookupIdx i acc, firstFragFor i fs with
          | some tc, _ => some { tc with function :=
              { tc.function with
                  arguments := tc.function.arguments ++ argsConcatFor i fs } }
          | none, some f => some
              { id := f.id,
                type := if f.type = "" then "function" else f.type,
                function :=
                  { name := f.name, arguments := argsConcatFor i fs } }
          | none, none => none := by
  induction fs with
  | nil =>
    intro acc i
    rw [List.foldl_nil]
    rcases hacc : lookupIdx i acc with _ | tc
    · simp [firstFragFor]
    · simp [firstFragFor, argsConcatFor, fragArgsFor, strConcat,
        String.append_empty]
  | cons f rest ih =>
    intro acc i
    rw [List.foldl_cons, ih (mergeToolCallDelta acc f) i]
    by_cases hfi : f.index = i
    · subst hfi
      have h2 : firstFragFor f.index (f :: rest) = some f := by
        simp [firstFragFor]
      have h3 : argsConcatFor f.index (f :: rest)
          = f.arguments ++ argsConcatFor f.index rest := by
        simp [argsConcatFor, fragArgsFor, List.filter_cons]
      rcases hacc : lookupIdx f.index acc with _ | tc
      · have hmerge : mergeToolCallDelta acc f
            = acc ++ [(f.index, initialToolCall f)] := by
          unfold mergeToolCallDelta
          rw [hacc]
        have hlook : lookupIdx f.index (mergeToolCallDelta acc f)
            = some (initialToolCall f) := by
          rw [hmerge, lookupIdx_append, hacc]
          simp [lookupIdx]
        rw [hlook, h2, h3]
        simp [initialToolCall]
      · by_cases hargs : f.arguments = ""
        · have hmerge : mergeToolCallDelta acc f = acc := by
            unfold mergeToolCallDelta
            rw [hacc]
            simp [hargs]
          rw [hmerge, hacc, h2, h3, hargs, String.empty_append]
        · have hmerge : mergeToolCallDelta acc f
              = appendArguments acc f.index f.arguments := by
            unfold mergeToolCallDelta
            rw [hacc]
            simp [hargs]
          have hlook : lookupIdx f.index (mergeToolCallDelta acc f)
              = some { tc with function := { tc.function with
                  arguments := tc.function.arguments ++ f.arguments } } := by
            rw [hmerge, lookupIdx_appendArguments_self, hacc]
            rfl
          rw [hlook, h2, h3]
          simp [String.append_assoc]
    · have h1 : lookupIdx i (mergeToolCallDelta acc f) = lookupIdx i acc :=
        lookupIdx_merge_ne acc f i fun hh => hfi hh.symm
      have h2 : firstFragFor i (f :: rest) = firstFragFor i rest := by
        simp [firstFragFor, hfi]
      have h3 : argsConcatFor i (f :: rest) = argsConcatFor i rest := by
        simp [argsConcatFor, fragArgsFor, List.filter_cons, hfi]
      rw [h1, h2, h3]

lemma processChunks_snd (chunks : List Chunk) :
    ∀ st : String × List (Nat × ToolCall),
      (chunks.foldl processChunk st).2
        = (streamFragments chunks).foldl mergeToolCallDelta st.2 := by
  induction chunks with
  | nil => intro st; simp [streamFragments]
  | cons c rest ih =>
    intro st
    match c with
    | none =>
      rw [List.foldl_cons, ih]
      have h2 : streamFragments (none :: rest) = streamFragments rest := by
        simp [streamFragments]
      rw [h2]
      rfl
    | some d =>
      rw [List.foldl_cons, ih (processChunk st (some d))]
      have h2 : streamFragments (some d :: rest)
          = d.toolCalls ++ streamFragments rest := by
        simp [streamFragments]
      rw [h2, List.foldl_append]
      have h3 : (processChunk st (some d)).2
          = d.toolCalls.foldl mergeToolCallDelta st.2 := by
        cases hd : d.content <;> simp [processChunk, mergeDelta, hd]
      rw [h3]

lemma streamDict_eq_foldl (chunks : List Chunk) :
    streamDict chunks
      = (streamFragments chunks).foldl mergeToolCallDelta [] :=
  processChunks_snd chunks ("", [])

lemma streamDict_lookup (chunks : List Chunk) (i : Nat) :
    lookupIdx i (streamDict chunks)
      = match firstFragFor i (streamFragments chunks) with
        | some f => some
            { id := f.id,
              type := if f.type = "" then "function" else f.type,
              function :=
                { name := f.name,
                  arguments := argsConcatFor i (streamFragments chunks) } }
        | none => none := by
  rw [streamDict_eq_foldl, lookupIdx_foldl_merge]
  cases hF : firstFragFor i (streamFragments chunks) <;> simp [lookupIdx]

lemma firstFragFor_isSome (i : Nat) (fs : List ToolCallDelta) :
    (firstFragFor i fs).isSome ↔ i ∈ fs.map ToolCallDelta.index := by
  induction fs with
  | nil => simp [firstFragFor]
  | cons f rest ih =>
    by_cases hfi : f.index = i
    · simp [firstFragFor, hfi]
    · have hfi2 : ¬ i = f.index := fun hh => hfi hh.symm
      simp [firstFragFor, hfi, hfi2, ih]

lemma lookupIdx_eq_none_iff (i : Nat) (l : List (Nat × ToolCall)) :
    lookupIdx i l = none ↔ i ∉ dictKeys l := by
  induction l with
  | nil => simp [lookupIdx, dictKeys]
  | cons p rest ih =>
    by_cases hp : p.1 = i
    · simp [lookupIdx, dictKeys, hp]
    · have hp2 : ¬ i = p.1 := fun hh => hp hh.symm
      simp [lookupIdx, dictKeys, hp, hp2, ih]

lemma dictKeys_appendArguments (acc : List (Nat × ToolCall)) (i : Nat)
    (args : String) :
    dictKeys (appendArguments acc i args) = dictKeys acc := by
  induction acc with
  | nil => rfl
  | cons p rest ih =>
    by_cases hp : p.1 = i
    · simpa [appendArguments, dictKeys, hp] using ih
    · simpa [appendArguments, dictKeys, hp] using ih

lemma dictKeys_merge (acc : List (Nat × ToolCall)) (d : ToolCallDelta) :
    dictKeys (mergeToolCallDelta acc d)
      = if lookupIdx d.index acc = none then dictKeys acc ++ [d.index]
        else dictKeys acc := by
  unfold mergeToolCallDelta
  rcases hl : lookupIdx d.index acc with _ | tc
  · simp [dictKeys]
  · by_cases hargs : d.arguments ≠ ""
    · simp [hargs, dictKeys_appendArguments]
    · simp [hargs]

lemma mem_dictKeys_foldl (fs : List ToolCallDelta) :
    ∀ (acc : List (Nat × ToolCall)) (j : Nat),
      j ∈ dictKeys (fs.foldl mergeToolCallDelta acc)
        ↔ j ∈ dictKeys acc ∨ j ∈ fs.map ToolCallDelta.index := by
  induction fs with
  | nil => intro acc j; simp
  | cons f rest ih =>
    intro acc j
    rw [List.foldl_cons, ih, dictKeys_merge]
    by_cases hl : lookupIdx f.index acc = none
    · simp only [if_pos hl, List.mem_append, List.mem_singleton,
        List.map_cons, List.mem_cons]
      tauto
    · have hmem : f.index ∈ dictKeys acc := by
        by_contra hmem
        exact hl ((lookupIdx_eq_none_iff f.index acc).mpr hmem)
      simp only [if_neg hl, List.map_cons, List.mem_cons]
      constructor
      · tauto
      · rintro (h | h | h)
        · tauto
        · subst h
          tauto
        · tauto

lemma nodup_dictKeys_foldl (fs : List ToolCallDelta) :
    ∀ acc : List (Nat × ToolCall),
      (dictKeys acc).Nodup → (dictKeys (fs.foldl mergeToolCallDelta acc)).Nodup := by
  induction fs with
  | nil => intro acc h; simpa using h
  | cons f rest ih =>
    intro acc h
    rw [List.foldl_cons]
    apply ih
    rw [dictKeys_merge]
    by_cases hl : lookupIdx f.index acc = none
    · have hnotmem : f.index ∉ dictKeys acc :=
        (lookupIdx_eq_none_iff f.index acc).mp hl
      rw [if_pos hl, List.nodup_append]
      refine ⟨h, List.nodup_singleton _, ?_⟩
      intro a ha hb
      rw [List.mem_singleton] at hb
      subst hb
      exact hnotmem ha
    · rw [if_neg hl]
      exact h

lemma nodup_streamDict_keys (chunks : List Chunk) :
    (dictKeys (streamDict chunks)).Nodup := by
  rw [streamDict_eq_foldl]
  exact nodup_dictKeys_foldl (streamFragments chunks) [] (by simp [dictKeys])

lemma sortedIndices_sorted_lt (chunks : List Chunk) :
    List.Sorted (· < ·) (sortedIndices chunks) := by
  have hle : List.Sorted (· ≤ ·) (sortedIndices chunks) :=
    List.sorted_insertionSort _ _
  have hperm : List.Perm (List.insertionSort (· ≤ ·)
      (dictKeys (streamDict chunks))) (dictKeys (streamDict chunks)) :=
    List.perm_insertionSort _ _
  have hnodup : (sortedIndices chunks).Nodup :=
    hperm.nodup_iff.mpr (nodup_streamDict_keys chunks)
  exact hle.lt_of_le hnodup

lemma mem_sortedIndices (chunks : List Chunk) (j : Nat) :
    j ∈ sortedIndices chunks ↔ j ∈ streamIndices chunks := by
  have hperm : List.Perm (List.insertionSort (· ≤ ·)
      (dictKeys (streamDict chunks))) (dictKeys (streamDict chunks)) :=
    List.perm_insertionSort _ _
  rw [sortedIndices, hperm.mem_iff, streamDict_eq_foldl,
    mem_dictKeys_foldl]
  simp [dictKeys, streamIndices]

/-- Claim C4: for every stream of chunks and every index appearing among its
tool-call fragments, the assembled entry for that index has arguments equal
to the concatenation, in arrival order, of all nonempty argument fragments
carrying that index, whatever the interleaving with other indices; moreover
the final tool-call list enumerates the dictionary along its index list
sorted strictly ascending, which contains exactly the indices seen in the
stream, not the arrival order of fragments. -/
theorem toolcall_fragment_reassembly (chunks : List Chunk) (i : Nat)
    (h : i ∈ streamIndices chunks) :
    ((lookupIdx i (streamDict chunks)).map fun tc => tc.function.arguments)
        = some (strConcat
            ((fragArgsFor i (streamFragments chunks)).filter fun s => s != ""))
      ∧ List.Sorted (· < ·) (sortedIndices chunks)
      ∧ (∀ j, j ∈ sortedIndices chunks ↔ j ∈ streamIndices chunks)
      ∧ finalToolCalls chunks
          = (sortedIndices chunks).filterMap
              fun j => lookupIdx j (streamDict chunks) := by
  refine ⟨?_, sortedIndices_sorted_lt chunks, mem_sortedIndices chunks, rfl⟩
  have hsome : (firstFragFor i (streamFragments chunks)).isSome :=
    (firstFragFor_isSome i (streamFragments chunks)).mpr h
  rcases hF : firstFragFor i (streamFragments chunks) with _ | f
  · rw [hF] at hsome
    simp at hsome
  · rw [streamDict_lookup, hF, strConcat_filter_ne]
    rfl

/-- Claim C4 witnessed on the specification example stream at index 0. -/
theorem toolcall_fragment_reassembly_witness :
    (0 ∈ streamIndices c4Chunks)
      ∧ (((lookupIdx 0 (streamDict c4Chunks)).map
            fun tc => tc.function.arguments)
            = some (strConcat
                ((fragArgsFor 0 (streamFragments c4Chunks)).filter
                  fun s => s != ""))
          ∧ List.Sorted (· < ·) (sortedIndices c4Chunks)
          ∧ (∀ j, j ∈ sortedIndices c4Chunks ↔ j ∈ streamIndices c4Chunks)
          ∧ finalToolCalls c4Chunks
              = (sortedIndices c4Chunks).filterMap
                  fun j => lookupIdx j (streamDict c4Chunks)) :=
  ⟨by decide, toolcall_fragment_reassembly c4Chunks 0 (by decide)⟩

/-- Claim C5 counterexample: when the first fragment of an index carries no name
and a later fragment does, the assembled name stays empty; the code never
fills the name from a later fragment, contradicting the claim that the
assembled name equals the later-arriving one. -/
theorem toolcall_late_name_ignored :
    ((lookupIdx 0 (streamDict c5Chunks)).map fun tc => tc.function.name)
        = some ""
      ∧ ("" : String) ≠ "get_weather" := by
  exact ⟨by decide, by decide⟩

/-- Claim C5 amended: the assembled name of an index is the name carried by the
FIRST fragment seen for that index, the empty string when that fragment
carries none; names arriving on later fragments are ignored and never
overwrite the initial value. -/
theorem toolcall_name_fixed_at_first_fragment (chunks : List Chunk) (i : Nat)
    (f : ToolCallDelta)
    (h : firstFragFor i (streamFragments chunks) = some f) :
    ((lookupIdx i (streamDict chunks)).map fun tc => tc.function.name)
      = some f.name := by
  rw [streamDict_lookup, h]
  rfl

/-- Claim C5 amended, witnessed on the C5 stream. -/
theorem toolcall_name_fixed_witness :
    (firstFragFor 0 (streamFragments c5Chunks) = some c5FirstFrag)
      ∧ ((lookupIdx 0 (streamDict c5Chunks)).map fun tc => tc.function.name)
          = some c5FirstFrag.name :=
  ⟨by decide,
    toolcall_name_fixed_at_first_fragment c5Chunks 0 c5FirstFrag (by decide)⟩

lemma execute_tool_calls_eq (exec : ToolCall → Except String String) :
    ∀ (calls : List ToolCall) (hist : List Message),
      execute_tool_calls exec hist calls
        = hist ++ calls.map (toolResultMessage exec) := by
  intro calls
  induction calls with
  | nil => intro hist; simp [execute_tool_calls]
  | cons tc rest ih =>
    intro hist
    show execute_tool_calls exec (hist ++ [toolResultMessage exec tc]) rest = _
    rw [ih]
    simp

lemma loopAux_step_good (model : Nat → StreamResult)
    (exec : ToolCall → Except String String) (fuel iter : Nat)
    (st : ChatState) (h1 : (model (iter + 1)).failure = none)
    (h2 : finalToolCalls (model (iter + 1)).chunks ≠ []) :
    loopAux model exec (fuel + 1) iter st
      = loopAux model exec fuel (iter + 1)
          (completeRound model exec (iter + 1) st) := by
  have h2b : (finalToolCalls (model (iter + 1)).chunks).isEmpty = false := by
    simp [List.isEmpty_iff, h2]
  simp only [loopAux, h1, h2b]
  simp [completeRound]

lemma roundsFrom_shift (model : Nat → StreamResult)
    (exec : ToolCall → Except String String) (iter : Nat) (st : ChatState) :
    ∀ n, roundsFrom model exec (iter + 1)
        (completeRound model exec (iter + 1) st) n
      = roundsFrom model exec iter st (n + 1) := by
  intro n
  induction n with
  | zero => rfl
  | succ n ih =>
    have hidx : iter + 1 + n + 1 = iter + (n + 1) + 1 := by omega
    show completeRound model exec (iter + 1 + n + 1)
        (roundsFrom model exec (iter + 1)
          (completeRound model exec (iter + 1) st) n)
      = completeRound model exec (iter + (n + 1) + 1)
          (roundsFrom model exec iter st (n + 1))
    rw [hidx, ih]

lemma loopAux_all_good (model : Nat → StreamResult)
    (exec : ToolCall → Except String String) :
    ∀ (fuel iter : Nat) (st : ChatState),
      (∀ j, iter < j → j ≤ iter + fuel → goodRound model j) →
      loopAux model exec fuel iter st
        = TurnResult.ok (roundsFrom model exec iter st fuel) (iter + fuel) := by
  intro fuel
  induction fuel with
  | zero =>
    intro iter st h
    simp [loopAux, roundsFrom]
  | succ fuel ih =>
    intro iter st h
    have hg : goodRound model (iter + 1) := h (iter + 1) (by omega) (by omega)
    rw [loopAux_step_good model exec fuel iter st hg.1 hg.2,
      ih (iter + 1) (completeRound model exec (iter + 1) st)
        (fun j hj1 hj2 => h j (by omega) (by omega)),
      roundsFrom_shift]
    congr 1
    omega

lemma loopAux_fail_after (model : Nat → StreamResult)
    (exec : ToolCall → Except String String) :
    ∀ (m fuel iter : Nat) (st : ChatState) (err : String),
      m < fuel →
      (∀ j, iter < j → j ≤ iter + m → goodRound model j) →
      (model (iter + m + 1)).failure = some err →
      loopAux model exec fuel iter st
        = TurnResult.failed
            { history := (roundsFrom model exec iter st m).history,
              output := (roundsFrom model exec iter st m).output
                ++ streamYields (model (iter + m + 1)).chunks }
            (iter + m + 1) := by
  intro m
  induction m with
  | zero =>
    intro fuel iter st err hmf h hfail
    cases fuel with
    | zero => omega
    | succ fuel =>
      simp only [Nat.add_zero] at hfail
      simp [loopAux, hfail, roundsFrom]
  | succ m ih =>
    intro fuel iter st err hmf h hfail
    cases fuel with
    | zero => omega
    | succ fuel =>
      have hg : goodRound model (iter + 1) := h (iter + 1) (by omega) (by omega)
      have hidx : iter + 1 + m + 1 = iter + (m + 1) + 1 := by omega
      have hfail2 : (model (iter + 1 + m + 1)).failure = some err := by
        rw [hidx]
        exact hfail
      rw [loopAux_step_good model exec fuel iter st hg.1 hg.2,
        ih fuel (iter + 1) (completeRound model exec (iter + 1) st) err
          (by omega) (fun j hj1 hj2 => h j (by omega) (by omega)) hfail2,
        roundsFrom_shift, hidx]

/-- Claim C3: when every round of the loop streams without failure and requests
at least one tool call and the summary round streams without failure, the
turn performs exactly the five tool-executing rounds of roundsFrom, exits
the main loop with current_iteration five, and performs exactly one
additional summary round: the synthetic user-authored summary request is
appended, the summary text is streamed to the caller, and the resulting
assistant message is appended; no sixth tool-executing round occurs. -/
theorem iteration_bound (model : Nat → StreamResult)
    (summary : StreamResult) (exec : ToolCall → Except String String)
    (sys : Message) (maxHistory : Nat) (hist : List Message)
    (userText : String)
    (hgood : ∀ j, 1 ≤ j → j ≤ 5 → goodRound model j)
    (hsum : summary.failure = none) :
    process_message_streaming model summary exec sys maxHistory hist userText
      = TurnResult.ok
          { history :=
              (roundsFrom model exec 0
                (initialTurnState sys maxHistory hist userText) 5).history
                ++ [summaryPromptMessage,
                    { role := Role.assistant,
                      content := fullContent summary.chunks }],
            output :=
              (roundsFrom model exec 0
                (initialTurnState sys maxHistory hist userText) 5).output
                ++ streamYields summary.chunks }
          5 := by
  simp only [process_message_streaming, maxToolIterations]
  rw [show ({ history := trim_history sys maxHistory hist
        ++ [userMsg userText], output := [] } : ChatState)
      = initialTurnState sys maxHistory hist userText from rfl]
  rw [loopAux_all_good model exec 5 0
        (initialTurnState sys maxHistory hist userText)
        (fun j h1 h2 => hgood j (by omega) (by omega))]
  simp [runSummary, hsum, List.append_assoc]

lemma c3Model_good (j : Nat) : goodRound c3Model j :=
  ⟨rfl, by
    show finalToolCalls [some stubToolDelta] ≠ []
    decide⟩

/-- Claim C3 witnessed on a model stub that always requests one tool call. -/
theorem iteration_bound_witness :
    (∀ j, 1 ≤ j → j ≤ 5 → goodRound c3Model j)
      ∧ c3Summary.failure = none
      ∧ process_message_streaming c3Model c3Summary okExec sysS 10 [sysS] "go"
          = TurnResult.ok
              { history :=
                  (roundsFrom c3Model okExec 0
                    (initialTurnState sysS 10 [sysS] "go") 5).history
                    ++ [summaryPromptMessage,
                        { role := Role.assistant,
                          content := fullContent c3Summary.chunks }],
                output :=
                  (roundsFrom c3Model okExec 0
                    (initialTurnState sysS 10 [sysS] "go") 5).output
                    ++ streamYields c3Summary.chunks }
              5 :=
  ⟨fun j _ _ => c3Model_good j, rfl,
    iteration_bound c3Model c3Summary okExec sysS 10 [sysS] "go"
      (fun j _ _ => c3Model_good j) rfl⟩

/-- Claim C2: when the fifth round yields zero tool calls the claim says the loop
terminates with no further output and no summary round; the code still runs
the summary round, because after the break current_iteration equals
max_tool_iterations and the post-loop check cannot tell a natural
termination on round five from tool-budget exhaustion.  On this run the
synthetic summary request is appended to the transcript and the summary
text is streamed after the final answer. -/
theorem round5_no_tools_still_summarizes :
    turnOutput (process_message_streaming c2Model c2Summary okExec
        sysS 10 [sysS] "hi")
        = ["final answer", "summary text"]
      ∧ summaryPromptMessage ∈ turnHistory (process_message_streaming
          c2Model c2Summary okExec sysS 10 [sysS] "hi") := by
  exact ⟨by decide, by decide⟩

/-- Claim C6: a tool call whose oracle run fails, whatever the position of the
call in the batch, never raises: execute_tool_calls still returns a full
history in which the failing call contributed a tool-role message carrying
the formatted error string and the tool_call_id of the call, the calls
before it contributed their messages in order, and the calls after it were
still executed in order. -/
theorem tool_failure_isolated (exec : ToolCall → Except String String)
    (hist : List Message) (pre post : List ToolCall) (tc : ToolCall)
    (e : String) (h : exec tc = Except.error e) :
    execute_tool_calls exec hist (pre ++ tc :: post)
      = hist ++ pre.map (toolResultMessage exec)
          ++ ({ role := Role.tool,
                content := "Error executing tool " ++ tc.function.name
                  ++ ": " ++ e,
                toolCallId := some tc.id } : Message)
            :: post.map (toolResultMessage exec) := by
  rw [execute_tool_calls_eq, List.map_append, List.map_cons]
  have htc : toolResultMessage exec tc
      = { role := Role.tool,
          content := "Error executing tool " ++ tc.function.name
            ++ ": " ++ e,
          toolCallId := some tc.id } := by
    simp [toolResultMessage, h]
  rw [htc]
  simp [List.append_assoc]

/-- Claim C6 witnessed on a batch with a failing middle call. -/
theorem tool_failure_isolated_witness :
    (c6Exec c6Bad = Except.error "Expecting value: line 1 column 1 (char 0)")
      ∧ execute_tool_calls c6Exec [] (c6Pre ++ c6Bad :: c6Post)
          = [] ++ c6Pre.map (toolResultMessage c6Exec)
              ++ ({ role := Role.tool,
                    content := "Error executing tool "
                      ++ c6Bad.function.name ++ ": "
                      ++ "Expecting value: line 1 column 1 (char 0)",
                    toolCallId := some c6Bad.id } : Message)
                :: c6Post.map (toolResultMessage c6Exec) :=
  ⟨rfl, tool_failure_isolated c6Exec [] c6Pre c6Post c6Bad
    "Expecting value: line 1 column 1 (char 0)" rfl⟩

/-- Claim C7: when the completion stream of round k raises (after rounds 1
through k minus 1 completed with tool calls), the exception propagates out
of process_message_streaming as a failed turn, and the transcript at that
point is exactly the transcript with which round k began: the assistant
message of the incomplete round was never appended.  Only the output gains
the fragments yielded before the failure. -/
theorem completion_error_propagates (model : Nat → StreamResult)
    (summary : StreamResult) (exec : ToolCall → Except String String)
    (sys : Message) (maxHistory : Nat) (hist : List Message)
    (userText : String) (k : Nat) (err : String)
    (hk1 : 1 ≤ k) (hk5 : k ≤ 5)
    (hgood : ∀ j, 1 ≤ j → j < k → goodRound model j)
    (hfail : (model k).failure = some err) :
    process_message_streaming model summary exec sys maxHistory hist userText
      = TurnResult.failed
          { history := (roundsFrom model exec 0
              (initialTurnState sys maxHistory hist userText) (k - 1)).history,
            output := (roundsFrom model exec 0
              (initialTurnState sys maxHistory hist userText) (k - 1)).output
              ++ streamYields (model k).chunks }
          k := by
  have hidx : 0 + (k - 1) + 1 = k := by omega
  simp only [process_message_streaming, maxToolIterations]
  rw [show ({ history := trim_history sys maxHistory hist
        ++ [userMsg userText], output := [] } : ChatState)
      = initialTurnState sys maxHistory hist userText from rfl]
  rw [loopAux_fail_after model exec (k - 1) 5 0
        (initialTurnState sys maxHistory hist userText) err (by omega)
        (fun j hj1 hj2 => hgood j (by omega) (by omega))
        (by rw [hidx]; exact hfail),
      hidx]

/-- Claim C7 witnessed with a stream failure in round 2. -/
theorem completion_error_propagates_witness :
    ((1:Nat) ≤ 2) ∧ ((2:Nat) ≤ 5)
      ∧ (∀ j, 1 ≤ j → j < 2 → goodRound c7Model j)
      ∧ (c7Model 2).failure = some "connection reset by peer"
      ∧ process_message_streaming c7Model c3Summary okExec sysS 10 [sysS] "go"
          = TurnResult.failed
              { history := (roundsFrom c7Model okExec 0
                  (initialTurnState sysS 10 [sysS] "go") (2 - 1)).history,
                output := (roundsFrom c7Model okExec 0
                  (initialTurnState sysS 10 [sysS] "go") (2 - 1)).output
                  ++ streamYields (c7Model 2).chunks }
              2 :=
  ⟨by omega, by omega,
    by
      intro j h1 h2
      have hj : j = 1 := by omega
      subst hj
      exact ⟨by decide, by decide⟩,
    by decide,
    completion_error_propagates c7Model c3Summary okExec sysS 10 [sysS] "go"
      2 "connection reset by peer" (by omega) (by omega)
      (by
        intro j h1 h2
        have hj : j = 1 := by omega
        subst hj
        exact ⟨by decide, by decide⟩)
      (by decide)⟩

